import Mathlib

/-!
Verification of the document-splitting engine in `Tools/split_pdf.py`.

Python strings are modelled as `List Char`; Python exceptions as an
explicit error type returned through `Except`.  The file-system and PDF
side effects of `split_pdf` are modelled as an explicit trace of
`Effect` values emitted in program order.
-/

namespace SplitPdf

/-- Characters stripped by Python `str.strip()` (ASCII whitespace). -/
def pyIsSpace (c : Char) : Bool :=
  c = ' ' || c = '\t' || c = '\n' || c = '\r' || c = Char.ofNat 11 || c = Char.ofNat 12

/-- Python `str.strip()`: remove leading and trailing whitespace. -/
def pyStrip (l : List Char) : List Char :=
  ((l.dropWhile pyIsSpace).reverse.dropWhile pyIsSpace).reverse

/-- Python `str.split(sep)` with a one-character separator: keeps empty
pieces, `"".split(sep) = [""]`. -/
def splitOnChar (sep : Char) : List Char → List (List Char)
  | [] => [[]]
  | c :: rest =>
    if c = sep then [] :: splitOnChar sep rest
    else
      match splitOnChar sep rest with
      | t :: ts => (c :: t) :: ts
      | [] => [[c]]

/-- Helper for `str.split(sep, 1)`: split at the first occurrence of
`sep`, if any. -/
def splitFirstAux (sep : Char) : List Char → Option (List Char × List Char)
  | [] => none
  | c :: rest =>
    if c = sep then some ([], rest)
    else (splitFirstAux sep rest).map (fun p => (c :: p.1, p.2))

/-- Python `str.split(sep, 1)` for a string known to contain `sep`
(`part.split('-', 1)` in `parse_pages`); when `sep` is absent the whole
string is returned as the first component. -/
def splitFirst (sep : Char) (l : List Char) : List Char × List Char :=
  match splitFirstAux sep l with
  | some p => p
  | none => (l, [])

/-- Digit run of a Python integer literal: decimal digits in which a
single underscore may occur between two digits (PEP 515), accumulating
the value.  Unicode digits are not modelled. -/
def pyDigits : List Char → Nat → Option Nat
  | [], acc => some acc
  | '_' :: c :: rest, acc =>
    if c.isDigit then pyDigits rest (acc * 10 + (c.toNat - 48)) else none
  | c :: rest, acc =>
    if c.isDigit then pyDigits rest (acc * 10 + (c.toNat - 48)) else none

/-- Python `int(s)` for a decimal string: strip whitespace, optional
sign, then a nonempty digit run; `none` models the `ValueError` raised
on anything else. -/
def pyInt (s : List Char) : Option Int :=
  match pyStrip s with
  | '+' :: c :: rest =>
    if c.isDigit then (pyDigits (c :: rest) 0).map Int.ofNat else none
  | '-' :: c :: rest =>
    if c.isDigit then (pyDigits (c :: rest) 0).map (fun n => -(Int.ofNat n)) else none
  | c :: rest =>
    if c.isDigit then (pyDigits (c :: rest) 0).map Int.ofNat else none
  | [] => none

/-- Python `range(a, b)` as a list of integers. -/
def intRange (a b : Int) : List Int :=
  (List.range (b - a).toNat).map (fun (k : Nat) => a + (k : Int))

/-- The exceptions `split_pdf.py` can raise, by raise site.  The design
document's error taxonomy maps onto them as noted. -/
inductive SplitError where
  /-- Python `ValueError` from `int()` on a non-numeric token (spec: `ParseError`),
  carrying the offending substring. -/
  | valueError (tok : List Char)
  /-- Python `FileNotFoundError(pdf_path)` (spec: `NotFoundError`). -/
  | fileNotFound
  /-- Python `RuntimeError("PDF is encrypted")` (spec: `AccessDeniedError`). -/
  | encrypted
  /-- Python `KeyError` from `str.format` for a placeholder that is none of
  `base`, `num`, `page` (spec: `ParseError` for templates). -/
  | keyError (name : List Char)
  /-- Python `IndexError` from `str.format` for an automatic or positional
  replacement field, since `format` is called with keywords only. -/
  | indexError
  /-- Python `ValueError` from `str.format` (unbalanced brace or a format spec
  outside the modelled subset). -/
  | formatValueError
  deriving DecidableEq, Repr

instance {ε α : Type} [DecidableEq ε] [DecidableEq α] : DecidableEq (Except ε α) := fun x y =>
  match x, y with
  | .ok a, .ok b =>
    if h : a = b then isTrue (h ▸ rfl) else isFalse (fun hc => by cases hc; exact h rfl)
  | .error a, .error b =>
    if h : a = b then isTrue (h ▸ rfl) else isFalse (fun hc => by cases hc; exact h rfl)
  | .ok _, .error _ => isFalse (fun hc => by cases hc)
  | .error _, .ok _ => isFalse (fun hc => by cases hc)

/-- Python `set.add`: sets are modelled as duplicate-free lists. -/
def setAdd (l : List Int) (v : Int) : List Int :=
  if v ∈ l then l else l ++ [v]

/-- Python `set.update` with an iterable. -/
def setUpdate (l : List Int) (vs : List Int) : List Int :=
  vs.foldl setAdd l

/-- One iteration of the `for part in pages_str.split(',')` loop of
`parse_pages`: strip the token (`part.strip()` is written out at each
use), skip it when empty, otherwise interpret it as a range `start-end`
(`start = int(start_s) - 1`, `end = int(end_s) - 1`, then
`range(start, min(end + 1, total))`) or a single 1-based page; `int()`
failures abort with a `ValueError` carrying the offending substring. -/
def processTok (total : Int) (pages : List Int) (part : List Char) :
    Except SplitError (List Int) :=
  if pyStrip part = [] then .ok pages
  else if '-' ∈ pyStrip part then
    match pyInt (splitFirst '-' (pyStrip part)).1 with
    | none => .error (.valueError (splitFirst '-' (pyStrip part)).1)
    | some a =>
      match pyInt (splitFirst '-' (pyStrip part)).2 with
      | none => .error (.valueError (splitFirst '-' (pyStrip part)).2)
      | some b => .ok (setUpdate pages (intRange (a - 1) (min ((b - 1) + 1) total)))
  else
    match pyInt (pyStrip part) with
    | none => .error (.valueError (pyStrip part))
    | some v => .ok (setAdd pages (v - 1))

/-- The `for part in pages_str.split(',')` loop itself: process the
tokens left to right, an exception aborting the loop immediately. -/
def foldTokens (total : Int) : List Int → List (List Char) → Except SplitError (List Int)
  | acc, [] => .ok acc
  | acc, part :: rest =>
    match processTok total acc part with
    | .error e => .error e
    | .ok acc' => foldTokens total acc' rest

/-- Function `parse_pages(pages_str, total)` of `split_pdf.py`: zero-based page
indexes to extract.  `none`/`[]` (Python falsy) selects every page;
otherwise the comma-separated tokens are folded into a set, which is
finally filtered to `[0, total)` and sorted ascending (`sorted` is
modelled by insertion sort, which agrees with it on the duplicate-free
list representing the set). -/
def parse_pages (pages_str : Option (List Char)) (total : Int) :
    Except SplitError (List Int) :=
  match pages_str with
  | none => .ok (intRange 0 total)
  | some s =>
    if s = [] then .ok (intRange 0 total)
    else
      match foldTokens total [] (splitOnChar ',' s) with
      | .error e => .error e
      | .ok pages =>
        .ok (List.insertionSort (· ≤ ·)
          (pages.filter (fun p => decide (0 ≤ p) && decide (p < total))))

/-- A token whose content is not valid integer or range syntax: after
stripping it is nonempty and `int()` rejects it (for a range, one of the
two sides). -/
def TokenMalformed (part : List Char) : Prop :=
  pyStrip part ≠ [] ∧
    (('-' ∈ pyStrip part ∧
        (pyInt (splitFirst '-' (pyStrip part)).1 = none ∨
         pyInt (splitFirst '-' (pyStrip part)).2 = none)) ∨
     ('-' ∉ pyStrip part ∧ pyInt (pyStrip part) = none))

instance (part : List Char) : Decidable (TokenMalformed part) := by
  unfold TokenMalformed
  infer_instance

/-- Read a replacement field: the characters up to the next `}`,
returning the field and the remainder of the template. -/
def readField : List Char → Option (List Char × List Char)
  | [] => none
  | c :: rest =>
    if c = '}' then some ([], rest)
    else (readField rest).map (fun p => (c :: p.1, p.2))

/-- Value of a decimal digit string (digits already validated). -/
def natOfDigits (l : List Char) : Nat :=
  l.foldl (fun a c => a * 10 + (c.toNat - 48)) 0

/-- The format-spec subset used by the naming templates: optional `0`
fill, optional width, final `d` (e.g. `03d`); `none` models the
`ValueError` Python raises for a spec outside this subset. -/
def parseSpecD (spec : List Char) : Option (Bool × Nat) :=
  let zr : Bool × List Char :=
    match spec with
    | '0' :: r => (true, r)
    | r => (false, r)
  match zr.2.getLast? with
  | some 'd' =>
    let ds := zr.2.dropLast
    if ds.all Char.isDigit then some (zr.1, natOfDigits ds) else none
  | _ => none

/-- Render an integer under a `d` format spec: zero-fill keeps the sign
in front, space-fill right-aligns, like CPython. -/
def padInt (n : Int) (zero : Bool) (width : Nat) : List Char :=
  let s := (toString n).toList
  if width ≤ s.length then s
  else if zero then
    if n < 0 then '-' :: (List.replicate (width - s.length) '0' ++ (toString (-n)).toList)
    else List.replicate (width - s.length) '0' ++ s
  else List.replicate (width - s.length) ' ' ++ s

/-- Python `format(v, spec)` for an integer value. -/
def renderInt (v : Int) (spec : List Char) : Except SplitError (List Char) :=
  if spec = [] then .ok (toString v).toList
  else
    match parseSpecD spec with
    | some zw => .ok (padInt v zw.1 zw.2)
    | none => .error .formatValueError

/-- Python `format(s, spec)` for a string value; only the empty spec is
modelled (the templates of this program never format `base`). -/
def renderStr (s : List Char) (spec : List Char) : Except SplitError (List Char) :=
  if spec = [] then .ok s else .error .formatValueError

/-- One replacement field of `pattern.format(base=..., num=..., page=...)`:
split at the first `:` into name and spec; an automatic or positional
(all-digits) name is an `IndexError` because no positional arguments are
passed; names other than `base`, `num`, `page` are a `KeyError`.
Attribute access, item access and `!` conversions inside a field are not
modelled. -/
def renderField (base : List Char) (num : Nat) (page : Int) (field : List Char) :
    Except SplitError (List Char) :=
  let ns := splitFirst ':' field
  let name := ns.1
  let spec := ns.2
  if name.all Char.isDigit then .error .indexError
  else if name = "base".toList then renderStr base spec
  else if name = "num".toList then renderInt (Int.ofNat num) spec
  else if name = "page".toList then renderInt page spec
  else .error (.keyError name)

/-- Python `pattern.format(base=base, num=num, page=page)`: scan the
template, copying literal text, turning `{{`/`}}` into a brace, and
substituting the replacement fields; a lone brace is a `ValueError`.
The first argument is recursion fuel; every step consumes at least one
character, so fuel equal to the template length (as supplied by
`pyFormat`) is always enough and the out-of-fuel branch is
unreachable. -/
def pyFormatAux (base : List Char) (num : Nat) (page : Int) :
    Nat → List Char → Except SplitError (List Char)
  | _, [] => .ok []
  | 0, _ :: _ => .error .formatValueError
  | fuel + 1, '{' :: '{' :: rest =>
    match pyFormatAux base num page fuel rest with
    | .ok t => .ok ('{' :: t)
    | .error e => .error e
  | fuel + 1, '{' :: rest =>
    match readField rest with
    | none => .error .formatValueError
    | some fr =>
      match renderField base num page fr.1 with
      | .error e => .error e
      | .ok out =>
        match pyFormatAux base num page fuel fr.2 with
        | .ok t => .ok (out ++ t)
        | .error e => .error e
  | fuel + 1, '}' :: '}' :: rest =>
    match pyFormatAux base num page fuel rest with
    | .ok t => .ok ('}' :: t)
    | .error e => .error e
  | _ + 1, '}' :: _ => .error .formatValueError
  | fuel + 1, c :: rest =>
    match pyFormatAux base num page fuel rest with
    | .ok t => .ok (c :: t)
    | .error e => .error e

/-- The call `pattern.format(base=base, num=num, page=page)` as written at
`split_pdf.py:62`. -/
def pyFormat (pattern base : List Char) (num : Nat) (page : Int) :
    Except SplitError (List Char) :=
  pyFormatAux base num page pattern.length pattern

/-- Python `os.path.basename` (POSIX): the part after the last `/`. -/
def basename (p : List Char) : List Char :=
  (p.reverse.takeWhile (fun c => c ≠ '/')).reverse

/-- Python `os.path.splitext` for a path without `/` (it is only applied to a
basename at `split_pdf.py:55`): split at the last dot unless every
character before it is a dot (so `.bashrc` keeps its dot). -/
def splitext (p : List Char) : List Char × List Char :=
  let revtail := p.reverse.takeWhile (fun c => c ≠ '.')
  if revtail.length = p.length then (p, [])
  else
    let stem := p.take (p.length - revtail.length - 1)
    if stem.any (fun c => c ≠ '.') then (stem, '.' :: revtail.reverse)
    else (p, [])

/-- The expression `os.path.splitext(os.path.basename(pdf_path))[0]` at `split_pdf.py:55`. -/
def baseOf (p : List Char) : List Char :=
  (splitext (basename p)).1

/-- Python `os.path.dirname` (POSIX): everything before the last `/`, with
trailing slashes stripped unless the result is all slashes. -/
def dirname (p : List Char) : List Char :=
  let tail := p.reverse.takeWhile (fun c => c ≠ '/')
  let head := (p.reverse.drop tail.length).reverse
  if head ≠ [] ∧ ¬ head.all (fun c => c = '/') then
    (head.reverse.dropWhile (fun c => c = '/')).reverse
  else head

/-- Python `os.path.join(a, b)` (POSIX, two arguments). -/
def pyJoin (a b : List Char) : List Char :=
  if b.head? = some '/' then b
  else if a = [] ∨ a.getLast? = some '/' then a ++ b
  else a ++ '/' :: b

/-- Externally visible steps of `split_pdf`, in program order.  Each
constructor records one side-effecting line of the source. -/
inductive Effect where
  /-- The call `os.makedirs(out_dir, exist_ok=True)` (line 57). -/
  | makedirs (dir : List Char)
  /-- The call `writer.add_page(reader.pages[page_no])` (line 61): extraction of
  one source page. -/
  | extractPage (pageNo : Int)
  /-- the `pattern.format(base=..., num=idx, page=page_no+1)` call
  (line 62), recording the values bound to `num` and `page`. -/
  | formatCall (num : Nat) (page : Int)
  /-- The call `writer.write(f)` into `os.path.join(out_dir, filename)` (lines 63-64). -/
  | writeFile (path : List Char)
  /-- The call `progress_cb(idx, len(page_indexes))` (line 66), as invoked when a
  callback is supplied. -/
  | progress (cur tot : Nat)
  deriving DecidableEq, Repr

/-- The facts about the source document that `split_pdf` consults:
`os.path.isfile(pdf_path)`, `reader.is_encrypted` and
`len(reader.pages)`. -/
structure PdfEnv where
  fileExists : Bool
  isEncrypted : Bool
  numPages : Nat
  deriving DecidableEq, Repr

/-- The `for idx, page_no in enumerate(page_indexes, start=1)` loop of
`split_pdf` (lines 59-66): per page, extract it, format the file name
(a failure there aborts the whole call), write the file, report
progress.  Returns the Python return value (`None`, i.e. `Unit`) or the
propagated exception, together with the effect trace. -/
def splitLoop (pattern base odir : List Char) (tot : Nat) :
    Nat → List Int → Except SplitError Unit × List Effect
  | _, [] => (.ok (), [])
  | i, p :: rest =>
    match pyFormat pattern base i (p + 1) with
    | .error e => (.error e, [.extractPage p, .formatCall i (p + 1)])
    | .ok fname =>
      let r := splitLoop pattern base odir tot (i + 1) rest
      (r.1, .extractPage p :: .formatCall i (p + 1) :: .writeFile (pyJoin odir fname) ::
        .progress i tot :: r.2)

/-- The assignment `out_dir = out_dir or os.path.dirname(pdf_path)` at `split_pdf.py:56`
(`None` and the empty string are both falsy). -/
def odirOf (pdf_path : List Char) (out_dir : Option (List Char)) : List Char :=
  match out_dir with
  | none => dirname pdf_path
  | some d => if d = [] then dirname pdf_path else d

/-- Function `split_pdf(pdf_path, out_dir, pattern, pages, progress_cb)`
(lines 29-66): check the file exists, refuse encrypted documents,
resolve the page selection, compute base name and output directory,
create the directory, then run the extraction loop.  The first
component is the Python return value (the function has no `return`
statement, so it is `None`/`Unit` on success) or the propagated
exception; the second is the trace of side effects in program order. -/
def split_pdf (env : PdfEnv) (pdf_path : List Char) (out_dir : Option (List Char))
    (pattern : List Char) (pages : Option (List Char)) :
    Except SplitError Unit × List Effect :=
  if env.fileExists = false then (.error .fileNotFound, [])
  else if env.isEncrypted = true then (.error .encrypted, [])
  else
    match parse_pages pages (Int.ofNat env.numPages) with
    | .error e => (.error e, [])
    | .ok page_indexes =>
      let r := splitLoop pattern (baseOf pdf_path) (odirOf pdf_path out_dir)
        page_indexes.length 1 page_indexes
      (r.1, .makedirs (odirOf pdf_path out_dir) :: r.2)

/-- The destination paths §4.3 of the design prescribes for selection
`idxs` with sequence numbers starting at `i`: per selected page, the
name resolver's output joined onto the output directory (cut short at a
template failure). -/
def pathsOf (pattern base odir : List Char) : Nat → List Int → List (List Char)
  | _, [] => []
  | i, p :: rest =>
    match pyFormat pattern base i (p + 1) with
    | .error _ => []
    | .ok fname => pyJoin odir fname :: pathsOf pattern base odir (i + 1) rest

/-- The written output paths, in write order, read off the trace. -/
def writtenPaths (effs : List Effect) : List (List Char) :=
  effs.filterMap (fun e =>
    match e with
    | .writeFile p => some p
    | _ => none)

/-- The values the `num` placeholder was bound to, in call order. -/
def numsOf (effs : List Effect) : List Nat :=
  effs.filterMap (fun e =>
    match e with
    | .formatCall n _ => some n
    | _ => none)

/-- The values the `page` placeholder was bound to, in call order. -/
def pagesOf (effs : List Effect) : List Int :=
  effs.filterMap (fun e =>
    match e with
    | .formatCall _ p => some p
    | _ => none)

/-- The pages extracted from the source, in extraction order. -/
def extractedOf (effs : List Effect) : List Int :=
  effs.filterMap (fun e =>
    match e with
    | .extractPage p => some p
    | _ => none)

/-! ### Helper lemmas -/

theorem mem_intRange {a b x : Int} : x ∈ intRange a b ↔ a ≤ x ∧ x < b := by
  unfold intRange
  rw [List.mem_map]
  constructor
  · rintro ⟨k, hk, rfl⟩
    rw [List.mem_range] at hk
    omega
  · intro h
    refine ⟨(x - a).toNat, ?_, ?_⟩
    · rw [List.mem_range]
      omega
    · omega

theorem intRange_sorted {a b : Int} : (intRange a b).Sorted (· < ·) := by
  unfold intRange
  refine List.Pairwise.map _ (fun m n h => ?_) (List.pairwise_lt_range _)
  omega

theorem setAdd_nodup {l : List Int} {v : Int} (h : l.Nodup) : (setAdd l v).Nodup := by
  unfold setAdd
  by_cases hv : v ∈ l
  · simpa [hv] using h
  · simp only [if_neg hv]
    rw [List.nodup_append]
    refine ⟨h, List.nodup_singleton v, ?_⟩
    intro x hx hx'
    simp at hx'
    subst hx'
    exact hv hx

theorem mem_setAdd {l : List Int} {v x : Int} : x ∈ setAdd l v ↔ x ∈ l ∨ x = v := by
  unfold setAdd
  by_cases hv : v ∈ l
  · simp only [if_pos hv]
    constructor
    · exact Or.inl
    · rintro (h | rfl)
      · exact h
      · exact hv
  · simp [if_neg hv, List.mem_append]

theorem setUpdate_nodup : ∀ {vs l : List Int}, l.Nodup → (setUpdate l vs).Nodup := by
  intro vs
  induction vs with
  | nil => intro l h; exact h
  | cons v vs ih =>
    intro l h
    show (setUpdate (setAdd l v) vs).Nodup
    exact ih (setAdd_nodup h)

theorem mem_setUpdate : ∀ {vs l : List Int} {x : Int},
    x ∈ setUpdate l vs ↔ x ∈ l ∨ x ∈ vs := by
  intro vs
  induction vs with
  | nil => intro l x; simp [setUpdate]
  | cons v vs ih =>
    intro l x
    show x ∈ setUpdate (setAdd l v) vs ↔ _
    rw [ih, mem_setAdd]
    simp only [List.mem_cons]
    tauto

theorem processTok_ok_cases {total : Int} {pages pages' : List Int} {part : List Char}
    (h : processTok total pages part = .ok pages') :
    pages' = pages ∨
    (∃ a b : Int, pages' = setUpdate pages (intRange (a - 1) (min ((b - 1) + 1) total))) ∨
    (∃ v : Int, pages' = setAdd pages (v - 1)) := by
  unfold processTok at h
  split at h
  · injection h with h'
    exact Or.inl h'.symm
  split at h
  · split at h
    · cases h
    · split at h
      · cases h
      · injection h with h'
        exact Or.inr (Or.inl ⟨_, _, h'.symm⟩)
  · split at h
    · cases h
    · injection h with h'
      exact Or.inr (Or.inr ⟨_, h'.symm⟩)

theorem processTok_nodup {total : Int} {pages pages' : List Int} {part : List Char}
    (hn : pages.Nodup) (h : processTok total pages part = .ok pages') : pages'.Nodup := by
  rcases processTok_ok_cases h with rfl | ⟨a, b, rfl⟩ | ⟨v, rfl⟩
  · exact hn
  · exact setUpdate_nodup hn
  · exact setAdd_nodup hn

theorem processTok_error_shape {total : Int} {acc : List Int} {part : List Char}
    {e : SplitError} (h : processTok total acc part = .error e) :
    ∃ t, e = .valueError t := by
  unfold processTok at h
  split at h
  · cases h
  split at h
  · split at h
    · injection h with h'
      exact ⟨_, h'.symm⟩
    · split at h
      · injection h with h'
        exact ⟨_, h'.symm⟩
      · cases h
  · split at h
    · injection h with h'
      exact ⟨_, h'.symm⟩
    · cases h

theorem foldTokens_nodup {total : Int} :
    ∀ {parts : List (List Char)} {acc res : List Int}, acc.Nodup →
      foldTokens total acc parts = .ok res → res.Nodup := by
  intro parts
  induction parts with
  | nil =>
    intro acc res h hf
    injection hf with h'
    subst h'
    exact h
  | cons q qs ih =>
    intro acc res h hf
    cases hq : processTok total acc q with
    | error e =>
      simp only [foldTokens, hq] at hf
      exact Except.noConfusion hf
    | ok acc' =>
      simp only [foldTokens, hq] at hf
      exact ih (processTok_nodup h hq) hf

theorem parse_pages_ok_props {e : Option (List Char)} {total : Int} {l : List Int}
    (h : parse_pages e total = .ok l) :
    l.Sorted (· < ·) ∧ l.Nodup ∧ ∀ i ∈ l, 0 ≤ i ∧ i < total := by
  have hall : intRange 0 total = l →
      l.Sorted (· < ·) ∧ l.Nodup ∧ ∀ i ∈ l, 0 ≤ i ∧ i < total := by
    rintro rfl
    refine ⟨intRange_sorted, intRange_sorted.nodup, ?_⟩
    intro i hi
    have := mem_intRange.mp hi
    omega
  cases e with
  | none =>
    simp only [parse_pages] at h
    injection h with h'
    exact hall h'
  | some s =>
    simp only [parse_pages] at h
    by_cases hs : s = []
    · rw [if_pos hs] at h
      injection h with h'
      exact hall h'
    · rw [if_neg hs] at h
      cases hf : foldTokens total [] (splitOnChar ',' s) with
      | error e2 =>
        rw [hf] at h
        exact Except.noConfusion h
      | ok pages =>
        rw [hf] at h
        injection h with h'
        subst h'
        have hnd : pages.Nodup := foldTokens_nodup List.nodup_nil hf
        have hndf := hnd.filter (fun p => decide (0 ≤ p) && decide (p < total))
        have hperm := List.perm_insertionSort (· ≤ ·)
          (pages.filter (fun p => decide (0 ≤ p) && decide (p < total)))
        have hnd2 := hperm.nodup_iff.mpr hndf
        have hle := List.sorted_insertionSort (· ≤ ·)
          (pages.filter (fun p => decide (0 ≤ p) && decide (p < total)))
        refine ⟨hle.lt_of_le hnd2, hnd2, ?_⟩
        intro i hi
        rw [List.mem_insertionSort, List.mem_filter] at hi
        have := hi.2
        simp only [Bool.and_eq_true, decide_eq_true_eq] at this
        exact this

/-! ### The claims -/

/-- C1: for every selection expression on which `parse_pages` succeeds
and every `totalPages > 0`, the returned zero-based index list is
strictly ascending, has no duplicates, and each element lies in
`[0, totalPages)` — also when tokens refer to pages outside the
document, which are silently dropped. -/
theorem parse_pages_sorted_nodup_bounded (e : Option (List Char)) (total : Int)
    (l : List Int) (ht : 0 < total) (h : parse_pages e total = .ok l) :
    l.Sorted (· < ·) ∧ l.Nodup ∧ ∀ i ∈ l, 0 ≤ i ∧ i < total :=
  parse_pages_ok_props h

theorem parse_pages_sorted_nodup_bounded_witness :
    List.Sorted (· < ·) ([1, 2, 3, 4] : List Int) ∧
      ([1, 2, 3, 4] : List Int).Nodup ∧
      ∀ i ∈ ([1, 2, 3, 4] : List Int), 0 ≤ i ∧ i < 5 :=
  parse_pages_sorted_nodup_bounded (some "2-9,100".toList) 5 [1, 2, 3, 4]
    (by decide) (by decide)

/-- C3: for every `totalPages > 0`, an empty or absent expression makes
`parse_pages` return exactly `[0, 1, …, totalPages - 1]`, in ascending
order. -/
theorem parse_pages_empty_expr_all_pages (e : Option (List Char)) (total : Int)
    (ht : 0 < total) (he : e = none ∨ e = some []) :
    parse_pages e total = .ok ((List.range total.toNat).map (fun (k : Nat) => (k : Int))) ∧
    ((List.range total.toNat).map (fun (k : Nat) => (k : Int))).Sorted (· < ·) := by
  have hr : intRange 0 total = (List.range total.toNat).map (fun (k : Nat) => (k : Int)) := by
    unfold intRange
    simp
  constructor
  · rcases he with rfl | rfl
    · simp [parse_pages, hr]
    · simp [parse_pages, hr]
  · rw [← hr]
    exact intRange_sorted

theorem parse_pages_empty_expr_all_pages_witness :
    parse_pages none 3 = .ok ((List.range (3 : Int).toNat).map (fun (k : Nat) => (k : Int))) ∧
    ((List.range (3 : Int).toNat).map (fun (k : Nat) => (k : Int))).Sorted (· < ·) :=
  parse_pages_empty_expr_all_pages none 3 (by decide) (Or.inl rfl)

/-- C9 counterexample: called with `totalPages = 0`, the range resolver
does not fail — it returns the empty index list (there is no
`InvalidDocumentError` anywhere in the code). -/
theorem parse_pages_zero_total_returns_list :
    parse_pages (some "1".toList) 0 = .ok [] := by decide

/-- C9 amended: `parse_pages` performs no validation of `totalPages`;
whenever the expression parses, a call with `totalPages ≤ 0` returns
the empty index list rather than raising anything. -/
theorem parse_pages_nonpos_total_empty (e : Option (List Char)) (total : Int)
    (l : List Int) (ht : total ≤ 0) (h : parse_pages e total = .ok l) : l = [] := by
  have hr : intRange 0 total = [] := by
    unfold intRange
    have h0 : (total - 0).toNat = 0 := by omega
    rw [h0]
    rfl
  cases e with
  | none =>
    simp only [parse_pages] at h
    rw [hr] at h
    injection h with h'
    exact h'.symm
  | some s =>
    simp only [parse_pages] at h
    by_cases hs : s = []
    · rw [if_pos hs, hr] at h
      injection h with h'
      exact h'.symm
    · rw [if_neg hs] at h
      cases hf : foldTokens total [] (splitOnChar ',' s) with
      | error e2 =>
        rw [hf] at h
        exact Except.noConfusion h
      | ok pages =>
        rw [hf] at h
        injection h with h'
        subst h'
        have hfe : pages.filter (fun p => decide (0 ≤ p) && decide (p < total)) = [] := by
          rw [List.filter_eq_nil_iff]
          intro a ha
          simp only [Bool.and_eq_true, decide_eq_true_eq, not_and]
          intro h1
          omega
        rw [hfe]
        rfl

theorem parse_pages_nonpos_total_empty_witness : ([] : List Int) = [] :=
  parse_pages_nonpos_total_empty (some "2".toList) (-1) [] (by decide) (by decide)

theorem splitOnChar_no_sep {sep : Char} {l : List Char} (h : sep ∉ l) :
    splitOnChar sep l = [l] := by
  induction l with
  | nil => rfl
  | cons c rest ih =>
    have hc : ¬ c = sep := fun hce => h (hce ▸ List.mem_cons_self c rest)
    have h' : sep ∉ rest := fun hm => h (List.mem_cons_of_mem _ hm)
    simp only [splitOnChar, if_neg hc, ih h']

theorem splitFirstAux_append {sep : Char} {s1 s2 : List Char} (h : sep ∉ s1) :
    splitFirstAux sep (s1 ++ sep :: s2) = some (s1, s2) := by
  induction s1 with
  | nil => simp [splitFirstAux]
  | cons c rest ih =>
    have hc : ¬ c = sep := fun hce => h (hce ▸ List.mem_cons_self c rest)
    have h' : sep ∉ rest := fun hm => h (List.mem_cons_of_mem _ hm)
    simp only [List.cons_append, splitFirstAux, if_neg hc, List.append_eq, ih h',
      Option.map_some']

theorem splitFirst_append {sep : Char} {s1 s2 : List Char} (h : sep ∉ s1) :
    splitFirst sep (s1 ++ sep :: s2) = (s1, s2) := by
  unfold splitFirst
  rw [splitFirstAux_append h]

/-- C2: a range token `a-b` (split at the first `-`, both sides parsed
as 1-based integers) makes `parse_pages` succeed — no error is raised,
also when the interval is empty after clipping (`b < a`), where the
token contributes nothing — and the result holds exactly the zero-based
indices of `[a-1, b-1]` intersected with `[0, totalPages)`.  The
witness instantiates the token `2-3` with `totalPages = 5` (the
returned list holding exactly 1 and 2) and the empty-after-clipping
token `9-2`, which also succeeds. -/
theorem parse_pages_range_token (s1 s2 : List Char) (a b total : Int)
    (h1 : pyInt s1 = some a) (h2 : pyInt s2 = some b)
    (hd1 : '-' ∉ s1) (hc1 : ',' ∉ s1) (hc2 : ',' ∉ s2)
    (hstrip : pyStrip (s1 ++ '-' :: s2) = s1 ++ '-' :: s2) :
    ∃ l, parse_pages (some (s1 ++ '-' :: s2)) total = .ok l ∧
      ∀ i : Int, i ∈ l ↔ a - 1 ≤ i ∧ i ≤ b - 1 ∧ 0 ≤ i ∧ i < total := by
  have hne : s1 ++ '-' :: s2 ≠ [] := by simp
  have hcomma : ',' ∉ s1 ++ '-' :: s2 := by
    intro hm
    rcases List.mem_append.mp hm with hm1 | hm2
    · exact hc1 hm1
    · rcases List.mem_cons.mp hm2 with he | hm3
      · exact absurd he (by decide)
      · exact hc2 hm3
  have hmem : '-' ∈ s1 ++ '-' :: s2 := List.mem_append_right _ (List.mem_cons_self _ _)
  have hpt : processTok total [] (s1 ++ '-' :: s2) =
      .ok (setUpdate [] (intRange (a - 1) (min ((b - 1) + 1) total))) := by
    unfold processTok
    rw [hstrip, if_neg hne, if_pos hmem, splitFirst_append hd1]
    simp only [h1, h2]
  refine ⟨List.insertionSort (· ≤ ·)
      ((setUpdate [] (intRange (a - 1) (min ((b - 1) + 1) total))).filter
        (fun p => decide (0 ≤ p) && decide (p < total))), ?_, ?_⟩
  · simp only [parse_pages]
    rw [if_neg hne, splitOnChar_no_sep hcomma]
    simp only [foldTokens, hpt]
  · intro i
    rw [List.mem_insertionSort, List.mem_filter, mem_setUpdate, mem_intRange]
    simp only [List.not_mem_nil, false_or, Bool.and_eq_true, decide_eq_true_eq]
    omega

theorem parse_pages_range_token_witness :
    (∃ l, parse_pages (some (['2'] ++ '-' :: ['3'])) 5 = .ok l ∧
      ∀ i : Int, i ∈ l ↔ 2 - 1 ≤ i ∧ i ≤ 3 - 1 ∧ 0 ≤ i ∧ i < 5) ∧
    (∃ l, parse_pages (some (['9'] ++ '-' :: ['2'])) 5 = .ok l ∧
      ∀ i : Int, i ∈ l ↔ 9 - 1 ≤ i ∧ i ≤ 2 - 1 ∧ 0 ≤ i ∧ i < 5) :=
  ⟨parse_pages_range_token ['2'] ['3'] 2 3 5 (by decide) (by decide) (by decide)
      (by decide) (by decide) (by decide),
    parse_pages_range_token ['9'] ['2'] 9 2 5 (by decide) (by decide) (by decide)
      (by decide) (by decide) (by decide)⟩

theorem processTok_malformed (total : Int) (acc : List Int) {part : List Char}
    (h : TokenMalformed part) :
    ∃ t, processTok total acc part = .error (.valueError t) := by
  obtain ⟨hne, hcase⟩ := h
  unfold processTok
  rw [if_neg hne]
  rcases hcase with ⟨hd, hnone⟩ | ⟨hd, hnone⟩
  · rw [if_pos hd]
    rcases hnone with hn1 | hn2
    · exact ⟨(splitFirst '-' (pyStrip part)).1, by simp only [hn1]⟩
    · cases hf : pyInt (splitFirst '-' (pyStrip part)).1 with
      | none => exact ⟨(splitFirst '-' (pyStrip part)).1, by simp only [hf]⟩
      | some a => exact ⟨(splitFirst '-' (pyStrip part)).2, by simp only [hf, hn2]⟩
  · rw [if_neg hd]
    exact ⟨pyStrip part, by simp only [hnone]⟩

theorem foldTokens_malformed (total : Int) :
    ∀ {parts : List (List Char)} (acc : List Int) {part : List Char},
      part ∈ parts → TokenMalformed part →
      ∃ t, foldTokens total acc parts = .error (.valueError t) := by
  intro parts
  induction parts with
  | nil =>
    intro acc part hm
    exact absurd hm (List.not_mem_nil _)
  | cons q qs ih =>
    intro acc part hm hmal
    rcases List.mem_cons.mp hm with rfl | hm'
    · obtain ⟨t, ht⟩ := processTok_malformed total acc hmal
      exact ⟨t, by simp only [foldTokens, ht]⟩
    · cases hq : processTok total acc q with
      | error e =>
        obtain ⟨t, ht⟩ := processTok_error_shape hq
        subst ht
        exact ⟨t, by simp only [foldTokens, hq]⟩
      | ok acc' =>
        obtain ⟨t, ht⟩ := ih acc' hm' hmal
        exact ⟨t, by simp only [foldTokens, hq]; exact ht⟩

/-- C4: an expression containing a token with non-numeric content (such
as `abc`, `3-` or `-2`) makes `parse_pages` raise the `int()`
`ValueError` (the spec's `ParseError`); it never returns a selection,
empty or otherwise, for such input. -/
theorem parse_pages_malformed_raises (s : List Char) (total : Int) (hne : s ≠ [])
    (hmal : ∃ part ∈ splitOnChar ',' s, TokenMalformed part) :
    ∃ t, parse_pages (some s) total = .error (.valueError t) := by
  obtain ⟨part, hmem, hm⟩ := hmal
  obtain ⟨t, ht⟩ := foldTokens_malformed total [] hmem hm
  refine ⟨t, ?_⟩
  simp only [parse_pages]
  rw [if_neg hne, ht]

theorem parse_pages_malformed_raises_witness :
    ∃ t, parse_pages (some "abc".toList) 5 = .error (.valueError t) :=
  parse_pages_malformed_raises "abc".toList 5 (by decide)
    ⟨"abc".toList, by decide, by decide⟩

theorem splitLoop_ok_trace (pattern base odir : List Char) (tot : Nat) :
    ∀ (idxs : List Int) (i : Nat),
      (splitLoop pattern base odir tot i idxs).1 = .ok () →
      numsOf (splitLoop pattern base odir tot i idxs).2 =
        (List.range idxs.length).map (fun k => i + k) ∧
      pagesOf (splitLoop pattern base odir tot i idxs).2 = idxs.map (fun q => q + 1) ∧
      extractedOf (splitLoop pattern base odir tot i idxs).2 = idxs ∧
      writtenPaths (splitLoop pattern base odir tot i idxs).2 =
        pathsOf pattern base odir i idxs ∧
      (writtenPaths (splitLoop pattern base odir tot i idxs).2).length = idxs.length := by
  intro idxs
  induction idxs with
  | nil =>
    intro i h
    simp [splitLoop, numsOf, pagesOf, extractedOf, writtenPaths, pathsOf]
  | cons p rest ih =>
    intro i h
    cases hf : pyFormat pattern base i (p + 1) with
    | error e =>
      simp only [splitLoop, hf] at h
      exact Except.noConfusion h
    | ok fname =>
      simp only [splitLoop, hf] at h ⊢
      obtain ⟨hn, hpg, hexr, hw, hlen⟩ := ih (i + 1) h
      refine ⟨?_, ?_, ?_, ?_, ?_⟩
      · simp only [numsOf, List.filterMap_cons, List.length_cons] at hn ⊢
        rw [hn, List.range_succ_eq_map, List.map_cons, List.map_map]
        congr 1
        · simp
          intro a ha
          omega
      · simp only [pagesOf, List.filterMap_cons, List.map_cons] at hpg ⊢
        rw [hpg]
      · simp only [extractedOf, List.filterMap_cons] at hexr ⊢
        rw [hexr]
      · simp only [writtenPaths, List.filterMap_cons, pathsOf, hf] at hw ⊢
        rw [hw]
      · simp only [writtenPaths, List.filterMap_cons, List.length_cons] at hlen ⊢
        rw [hlen]

/-- C5: an encrypted source document makes `split_pdf` raise
`RuntimeError("PDF is encrypted")` (the spec's `AccessDeniedError`)
with an empty effect trace: no directory creation, no page extraction,
no file written. -/
theorem split_pdf_encrypted_no_effects (env : PdfEnv) (p : List Char)
    (o : Option (List Char)) (pat : List Char) (pg : Option (List Char))
    (hex : env.fileExists = true) (henc : env.isEncrypted = true) :
    split_pdf env p o pat pg = (.error .encrypted, []) := by
  simp [split_pdf, hex, henc]

theorem split_pdf_encrypted_no_effects_witness :
    split_pdf ⟨true, true, 3⟩ "dir/doc.pdf".toList none "{base}_{num:03d}.pdf".toList none =
      (.error .encrypted, []) :=
  split_pdf_encrypted_no_effects ⟨true, true, 3⟩ "dir/doc.pdf".toList none
    "{base}_{num:03d}.pdf".toList none rfl rfl

/-- C6: when `split_pdf` succeeds, the pages are processed in strictly
ascending original order, the `num` placeholder receives the contiguous
values `1..N` over the selected sequence, and the `page` placeholder
receives the original 1-based page number `index + 1`. -/
theorem split_pdf_num_page_values (env : PdfEnv) (p : List Char) (o : Option (List Char))
    (pat : List Char) (pg : Option (List Char)) (l : List Int)
    (hex : env.fileExists = true) (henc : env.isEncrypted = false)
    (hp : parse_pages pg (Int.ofNat env.numPages) = .ok l)
    (hok : (split_pdf env p o pat pg).1 = .ok ()) :
    l.Sorted (· < ·) ∧
    numsOf (split_pdf env p o pat pg).2 = (List.range l.length).map (fun k => 1 + k) ∧
    pagesOf (split_pdf env p o pat pg).2 = l.map (fun q => q + 1) ∧
    extractedOf (split_pdf env p o pat pg).2 = l := by
  simp only [split_pdf, hex, henc, hp] at hok ⊢
  simp only [Bool.true_eq_false, if_false, if_true] at hok ⊢
  obtain ⟨hn, hpg2, hexr, hw, hlen⟩ :=
    splitLoop_ok_trace pat (baseOf p) (odirOf p o) l.length l 1 hok
  refine ⟨(parse_pages_ok_props hp).1, ?_, ?_, ?_⟩
  · simpa [numsOf] using hn
  · simpa [pagesOf] using hpg2
  · simpa [extractedOf] using hexr

theorem split_pdf_num_page_values_witness :
    List.Sorted (· < ·) ([0, 1, 2, 4] : List Int) ∧
    numsOf (split_pdf ⟨true, false, 5⟩ "dir/doc.pdf".toList none
      "{base}_{num:03d}.pdf".toList (some "1-3,5".toList)).2 =
      (List.range ([0, 1, 2, 4] : List Int).length).map (fun k => 1 + k) ∧
    pagesOf (split_pdf ⟨true, false, 5⟩ "dir/doc.pdf".toList none
      "{base}_{num:03d}.pdf".toList (some "1-3,5".toList)).2 =
      ([0, 1, 2, 4] : List Int).map (fun q => q + 1) ∧
    extractedOf (split_pdf ⟨true, false, 5⟩ "dir/doc.pdf".toList none
      "{base}_{num:03d}.pdf".toList (some "1-3,5".toList)).2 = [0, 1, 2, 4] :=
  split_pdf_num_page_values ⟨true, false, 5⟩ "dir/doc.pdf".toList none
    "{base}_{num:03d}.pdf".toList (some "1-3,5".toList) [0, 1, 2, 4]
    rfl rfl (by decide) (by decide)

/-- C7 counterexample: on success `split_pdf` returns `None` (modelled
as `Unit`), not the list of written paths — here it succeeds returning
`()` while three output files were written. -/
theorem split_pdf_success_returns_none :
    (split_pdf ⟨true, false, 3⟩ "dir/sample.pdf".toList none
      "{base}_{num:03d}.pdf".toList none).1 = .ok () ∧
    writtenPaths (split_pdf ⟨true, false, 3⟩ "dir/sample.pdf".toList none
      "{base}_{num:03d}.pdf".toList none).2 =
      ["dir/sample_001.pdf".toList, "dir/sample_002.pdf".toList,
        "dir/sample_003.pdf".toList] := by
  decide

/-- C7 amended: on success `split_pdf` returns `None`; the full ordered
list of written output paths — one per selected page, in write order —
is produced as its write effects, matching the per-page destination
paths of the design's extraction pipeline. -/
theorem split_pdf_written_paths (env : PdfEnv) (p : List Char) (o : Option (List Char))
    (pat : List Char) (pg : Option (List Char)) (l : List Int)
    (hex : env.fileExists = true) (henc : env.isEncrypted = false)
    (hp : parse_pages pg (Int.ofNat env.numPages) = .ok l)
    (hok : (split_pdf env p o pat pg).1 = .ok ()) :
    writtenPaths (split_pdf env p o pat pg).2 = pathsOf pat (baseOf p) (odirOf p o) 1 l ∧
    (writtenPaths (split_pdf env p o pat pg).2).length = l.length := by
  simp only [split_pdf, hex, henc, hp] at hok ⊢
  simp only [Bool.true_eq_false, if_false, if_true] at hok ⊢
  obtain ⟨hn, hpg2, hexr, hw, hlen⟩ :=
    splitLoop_ok_trace pat (baseOf p) (odirOf p o) l.length l 1 hok
  constructor
  · simpa [writtenPaths] using hw
  · simpa [writtenPaths] using hlen

theorem split_pdf_written_paths_witness :
    writtenPaths (split_pdf ⟨true, false, 2⟩ "a/b.pdf".toList (some "out".toList)
      "{base}_{num:03d}.pdf".toList none).2 =
      pathsOf "{base}_{num:03d}.pdf".toList (baseOf "a/b.pdf".toList)
        (odirOf "a/b.pdf".toList (some "out".toList)) 1 [0, 1] ∧
    (writtenPaths (split_pdf ⟨true, false, 2⟩ "a/b.pdf".toList (some "out".toList)
      "{base}_{num:03d}.pdf".toList none).2).length = ([0, 1] : List Int).length :=
  split_pdf_written_paths ⟨true, false, 2⟩ "a/b.pdf".toList (some "out".toList)
    "{base}_{num:03d}.pdf".toList none [0, 1] rfl rfl (by decide) (by decide)

/-- C8 counterexample: a template with the unrecognized placeholder
`foo` raises nothing at all when the selection is empty — there is no
template-compile step, so the claimed fail-fast `ParseError` does not
exist. -/
theorem split_pdf_unknown_placeholder_no_error :
    split_pdf ⟨true, false, 5⟩ "dir/doc.pdf".toList none "{foo}.pdf".toList
      (some "10".toList) = (.ok (), [.makedirs "dir".toList]) := by
  decide

/-- C8 amended: an unrecognized placeholder is detected only inside the
extraction loop, at the first `pattern.format` call: with a nonempty
selection, `split_pdf` fails during iteration 1, after the output
directory was created and the first page extracted, though before any
file is written; the failure is the `format` exception (a `KeyError`),
not a template-compile-time `ParseError`. -/
theorem split_pdf_unknown_placeholder_first_iter (env : PdfEnv) (p : List Char)
    (o : Option (List Char)) (pat : List Char) (pg : Option (List Char))
    (q : Int) (rest : List Int) (err : SplitError)
    (hex : env.fileExists = true) (henc : env.isEncrypted = false)
    (hp : parse_pages pg (Int.ofNat env.numPages) = .ok (q :: rest))
    (hbad : pyFormat pat (baseOf p) 1 (q + 1) = .error err) :
    split_pdf env p o pat pg =
      (.error err, [.makedirs (odirOf p o), .extractPage q, .formatCall 1 (q + 1)]) := by
  simp only [split_pdf, hex, henc, Bool.true_eq_false, Bool.false_eq_true,
    if_false, if_true, hp]
  simp [splitLoop, hbad]

theorem split_pdf_unknown_placeholder_first_iter_witness :
    split_pdf ⟨true, false, 3⟩ "dir/doc.pdf".toList none "{foo}.pdf".toList none =
      (.error (.keyError "foo".toList),
        [.makedirs (odirOf "dir/doc.pdf".toList none), .extractPage 0,
          .formatCall 1 (0 + 1)]) :=
  split_pdf_unknown_placeholder_first_iter ⟨true, false, 3⟩ "dir/doc.pdf".toList none
    "{foo}.pdf".toList none 0 [1, 2] (.keyError "foo".toList) rfl rfl
    (by decide) (by decide)

/-- C10: a pages expression whose parse fails makes `split_pdf` raise
with an empty effect trace — the output directory is not created and no
file is written, so the file system is untouched. -/
theorem split_pdf_parse_error_no_effects (env : PdfEnv) (p : List Char)
    (o : Option (List Char)) (pat : List Char) (pg : Option (List Char))
    (err : SplitError)
    (hex : env.fileExists = true) (henc : env.isEncrypted = false)
    (hp : parse_pages pg (Int.ofNat env.numPages) = .error err) :
    split_pdf env p o pat pg = (.error err, []) := by
  simp only [split_pdf, hex, henc, Bool.true_eq_false, Bool.false_eq_true,
    if_false, if_true, hp]

theorem split_pdf_parse_error_no_effects_witness :
    split_pdf ⟨true, false, 3⟩ "dir/doc.pdf".toList none "{base}_{num:03d}.pdf".toList
      (some "abc".toList) = (.error (.valueError "abc".toList), []) :=
  split_pdf_parse_error_no_effects ⟨true, false, 3⟩ "dir/doc.pdf".toList none
    "{base}_{num:03d}.pdf".toList (some "abc".toList) (.valueError "abc".toList)
    rfl rfl (by decide)

end SplitPdf
